import Mathlib

/-!
Shallow embedding of the bitswap session orchestrator (src/index.js) of the
js-ipfs-bitswap repository, together with proofs about its receive path,
counters, retrying block storage, the streaming get API and start/stop
sequencing.

Keys (multihashes) are modelled as naturals, block data as lists of bytes
(naturals).  The blockstore is a list of blocks with at most one block per
key; its `put` is idempotent with respect to the key, as the spec requires of
the blockstore collaborator.  Side effects (engine calls, notification
emissions, want-manager calls) are recorded in an explicit event trace.
-/

namespace Bitswap

/-- A block: a key (the multihash of the data) together with binary data. -/
structure Block where
  key : Nat
  data : List Nat
deriving DecidableEq, Repr

/-- Base58 rendering of a key (`mh.toB58String` from the external multihashes
collaborator), modelled as an injective rendering of the key; used in event
names and error messages. -/
def toB58String (k : Nat) : String := toString k

/-- Blockstore contents: the stored blocks, at most one per key. -/
abbrev Store := List Block

/-- The blockstore's `has(key)` (successful case). -/
def storeHas (s : Store) (k : Nat) : Bool :=
  s.any (fun b => b.key == k)

/-- The blockstore's `get(key)` (successful case). -/
def storeGet (s : Store) (k : Nat) : Option Block :=
  s.find? (fun b => b.key == k)

/-- The blockstore's `put(block)`: idempotent with respect to the key. -/
def storePut (s : Store) (b : Block) : Store :=
  if storeHas s b.key then s else b :: s

/-- Side effects of the orchestrator, recorded as an explicit trace:
calls into the decision engine, the want manager and the network components,
notification emissions, and blockstore writes. -/
inductive Event where
  | engineMessageReceived
  | cancelWants (keys : List Nat)
  | counterUpdate (key : Nat)
  | hasBlockCall (b : Block)
  | blockstorePut (b : Block)
  | putFailed (b : Block)
  | notifyBlock (name : String) (b : Block)
  | engineReceivedBlock (b : Block)
  | wmUnwantBlocks (keys : List Nat)
  | notifyUnwant (name : String)
  | wmRun
  | networkStart
  | engineStart
  | wmStop
  | networkStop
  | engineStop
deriving DecidableEq, Repr

/-- The duplicate-block counters held on the orchestrator
(`blocksRecvd`, `dupBlocksRecvd`, `dupDataRecvd`). -/
structure Counters where
  blocksRecvd : Nat
  dupBlocksRecvd : Nat
  dupDataRecvd : Nat
deriving DecidableEq, Repr

/-- Orchestrator state touched by the receive path: the blockstore and the
counters. -/
structure BState where
  store : Store
  counters : Counters
deriving DecidableEq, Repr

/-- `_updateReceiveCounters(block, cb)`: always increments `blocksRecvd`;
then consults `blockstore.has` (whose outcome, possibly an error, is passed
in as `hasResult`).  On a storage error the error is forwarded to the
callback and the duplicate counters are untouched; if the store already has
the key, both duplicate counters are bumped and the callback receives the
`Already have block` error; otherwise the callback succeeds.  Returns the new
counters and the value passed to the callback. -/
def updateReceiveCounters (c : Counters) (b : Block) (hasResult : Except Unit Bool) :
    Counters × Except String Unit :=
  let c1 : Counters := { c with blocksRecvd := c.blocksRecvd + 1 }
  match hasResult with
  | Except.error _ => (c1, Except.error "blockstore error")
  | Except.ok true =>
      ({ c1 with
          dupBlocksRecvd := c1.dupBlocksRecvd + 1,
          dupDataRecvd := c1.dupDataRecvd + b.data.length },
       Except.error "Already have block")
  | Except.ok false => (c1, Except.ok ())

/-- The retry count `_tryPutBlock` is invoked with in `hasBlock`
(`this._tryPutBlock(block, 4, ...)`). -/
def hasBlockRetryTimes : Nat := 4

/-- The retry interval, in milliseconds, `_tryPutBlock` hands to `retry`
(`retry(\x7btimes, interval: 400\x7d, ...)`). -/
def tryPutInterval : Nat := 400

/-- `_tryPutBlock(block, times, cb)`: attempts the blockstore put up to
`times` times; `putFails i` tells whether the i-th attempt fails.  Returns
whether some attempt among the first `times` succeeds (in which case the
callback receives no error). -/
def tryPutBlock (putFails : Nat → Bool) (times : Nat) : Bool :=
  (List.range times).any (fun i => !(putFails i))

/-- `hasBlock(block, cb)`: stores the block via `_tryPutBlock` with
`hasBlockRetryTimes` attempts.  On success it emits the `block:<keyB58>`
notification and calls `engine.receivedBlock(block)`, then the callback gets
no error; if all attempts fail, the error goes to the callback and neither
the notification nor the engine call happens.  Returns the new store, the
emitted events (in order), and the error handed to the callback. -/
def hasBlock (s : Store) (b : Block) (putFails : Nat → Bool) :
    Store × List Event × Option String :=
  if tryPutBlock putFails hasBlockRetryTimes then
    (storePut s b,
     [Event.blockstorePut b,
      Event.notifyBlock ("block:" ++ toB58String b.key) b,
      Event.engineReceivedBlock b],
     none)
  else
    (s, [Event.putFailed b], some "Error writing block to blockstore")

/-- The per-block body of `_receiveMessage`'s `eachLimit`: a `series` of
`_updateReceiveCounters` — whose error (duplicate or storage fault) is
swallowed, so the series always continues — followed by `hasBlock` (whose
error is logged and ignored).  `bf.2` injects a fault into the
`blockstore.has` call of the counters step.  Returns the new state and the
events of this block's processing. -/
def processBlock (putFails : Nat → Bool) (st : BState) (bf : Block × Bool) :
    BState × List Event :=
  let b := bf.1
  let hasResult : Except Unit Bool :=
    if bf.2 then Except.error () else Except.ok (storeHas st.store b.key)
  let cres := updateReceiveCounters st.counters b hasResult
  let hres := hasBlock st.store b putFails
  ({ store := hres.1, counters := cres.1 },
   Event.counterUpdate b.key :: Event.hasBlockCall b :: hres.2.1)

/-- One step of `_receiveMessage`'s block loop: process the block from the
accumulated state and append its events to the accumulated trace. -/
def rmStep (putFails : Nat → Bool) (acc : BState × List Event) (bf : Block × Bool) :
    BState × List Event :=
  ((processBlock putFails acc.1 bf).1, acc.2 ++ (processBlock putFails acc.1 bf).2)

/-- `_receiveMessage(peerId, incoming, cb)` after `engine.messageReceived`:
if the message carries no blocks the callback fires at once; otherwise the
keys of the blocks found in the local want-list `wl` are collected in
message order and cancelled via `wm.cancelWants`, and then every block goes
through the counters-then-hasBlock series (sequential model of the bounded
`eachLimit`).  Each block comes with its injected `blockstore.has` fault
flag.  Returns the final state and the event trace. -/
def receiveMessage (putFails : Nat → Bool) (wl : List Nat) (st : BState)
    (blocks : List (Block × Bool)) : BState × List Event :=
  if blocks.isEmpty then (st, [Event.engineMessageReceived]) else
  let keys := ((blocks.map Prod.fst).filter (fun b => wl.contains b.key)).map Block.key
  blocks.foldl (rmStep putFails)
    (st, [Event.engineMessageReceived, Event.cancelWants keys])

/-- `_receiveMessage` in the fault-free regime: every `blockstore.has` call
answers and every put attempt succeeds. -/
def receiveMessageOk (wl : List Nat) (st : BState) (blocks : List Block) :
    BState × List Event :=
  receiveMessage (fun _ => false) wl st (blocks.map (fun b => (b, false)))

/-- A sequence of fault-free `_receiveMessage` calls. -/
def receiveMessages (wl : List Nat) (st : BState) (msgs : List (List Block)) :
    BState :=
  msgs.foldl (fun s m => (receiveMessageOk wl s m).1) st

/-- Spec-side replay of a delivery sequence: flags each delivered block that
was already present in the blockstore at its delivery time, the store
evolving by the (idempotent) put of every delivered block. -/
def dupFlags : Store → List Block → List (Block × Bool)
  | _, [] => []
  | s, b :: bs => (b, storeHas s b.key) :: dupFlags (storePut s b) bs

/-- Number of flagged (duplicate) deliveries. -/
def dupCount (flags : List (Block × Bool)) : Nat :=
  (flags.filter Prod.snd).length

/-- Total data length of the flagged (duplicate) deliveries. -/
def dupData (flags : List (Block × Bool)) : Nat :=
  ((flags.filter Prod.snd).map (fun p => p.1.data.length)).sum

/-- A notification dispatched on the orchestrator's event emitter: the event
name and, for `block:` events, the block payload. -/
structure Notif where
  name : String
  payload : Option Block
deriving DecidableEq, Repr

/-- What a pending get observes in the end. -/
inductive GetOutcome where
  | delivered (b : Block)
  | unwanted
  | waiting
deriving DecidableEq, Repr

/-- One `getStream` fed a single key that is absent from the blockstore: the
sink registers two one-shot listeners (`unwant:<keyB58>` and
`block:<keyB58>`) and the stream then reacts to the emitted notifications in
order.  Per the source, the unwant listener only logs
`manual unwant: <keyB58>` and calls `cleanupListener`, after which `finish`
ends the pusher with `pusher.end()` — carrying NO error; the block listener
pushes the block downstream.  Returns the outcome, the blocks emitted
downstream, and the error (if any) with which the stream ends. -/
def getStreamWaiter (key : Nat) : List Notif → GetOutcome × List Block × Option String
  | [] => (GetOutcome.waiting, [], none)
  | n :: ns =>
    if n.name = "unwant:" ++ toB58String key then
      (GetOutcome.unwanted, [], none)
    else if n.name = "block:" ++ toB58String key then
      match n.payload with
      | some b => (GetOutcome.delivered b, [b], none)
      | none => getStreamWaiter key ns
    else getStreamWaiter key ns

/-- `unwantBlocks(keys)`: force-remove via `wm.unwantBlocks`, then emit an
`unwant:<keyB58>` notification for every key.  Returns the event trace and
the notifications placed on the emitter. -/
def unwantBlocks (keys : List Nat) : List Event × List Notif :=
  (Event.wmUnwantBlocks keys ::
    keys.map (fun k => Event.notifyUnwant ("unwant:" ++ toB58String k)),
   keys.map (fun k => { name := "unwant:" ++ toB58String k, payload := none }))

/-- Result of feeding one key into the `getStream` sink pipeline. -/
structure KeyProcResult where
  emitted : List Block
  registered : Bool
  wantedKeys : List Nat
  cancelledKeys : List Nat
deriving DecidableEq, Repr

/-- One key through the `getStream` sink pipeline with a fault-free
`blockstore.has`: if the store has the key, the block is read from the store
and pushed downstream (and its want cancelled); otherwise the two waiters
are registered via `addListener` and `wm.wantBlocks([key])` broadcasts the
want. -/
def getStreamProcessKey (s : Store) (k : Nat) : KeyProcResult :=
  if storeHas s k then
    { emitted := (storeGet s k).toList,
      registered := false,
      wantedKeys := [],
      cancelledKeys := ((storeGet s k).toList).map Block.key }
  else
    { emitted := [], registered := true, wantedKeys := [k], cancelledKeys := [] }

/-- Modelled from the spec: the WantManager's local WantList with reference
counts (`src/wantmanager` and its WantList are part of this repository but
not under src/).  `add(key)` increments the refcount of an existing entry
and inserts a fresh entry with refcount 1 otherwise. -/
def wlAdd : List (Nat × Nat) → Nat → List (Nat × Nat)
  | [], k => [(k, 1)]
  | e :: es, k => if e.1 = k then (e.1, e.2 + 1) :: es else e :: wlAdd es k

/-- Refcount of a key in the modelled want-list (0 when absent). -/
def wlRefcount (wl : List (Nat × Nat)) (k : Nat) : Nat :=
  ((wl.find? (fun e => e.1 == k)).map Prod.snd).getD 0

/-- State of the concurrent-gets scenario: the modelled want-list, the
registered one-shot block listeners (get id, key), and the deliveries
(get id, block) made so far. -/
structure GetsState where
  wl : List (Nat × Nat)
  waiters : List (Nat × Nat)
  delivered : List (Nat × Block)
deriving DecidableEq, Repr

/-- A `get(k)` whose key is missing from the blockstore: `getStream`
registers the one-shot `block:<keyB58>` listener for the caller `gid` and
then `wm.wantBlocks([k])` bumps the refcount of k's single want entry. -/
def registerGet (st : GetsState) (gid : Nat) (k : Nat) : GetsState :=
  { st with
      waiters := st.waiters ++ [(gid, k)],
      wl := wlAdd st.wl k }

/-- The single `block:<keyB58>` emission performed by a successful
`hasBlock(b)`: every currently registered one-shot listener for b's key
fires once with the block and is removed; listeners for other keys are
untouched. -/
def deliverBlock (st : GetsState) (b : Block) : GetsState :=
  { st with
      delivered :=
        st.delivered ++ (st.waiters.filter (fun w => w.2 == b.key)).map (fun w => (w.1, b)),
      waiters := st.waiters.filter (fun w => !(w.2 == b.key)) }

/-- The components started and stopped by the orchestrator. -/
inductive Comp where
  | wm
  | network
  | engine
deriving DecidableEq, Repr

/-- Event trace of `start()`: `this.wm.run(); this.network.start();
this.engine.start()`. -/
def startEvents : List Event :=
  [Event.wmRun, Event.networkStart, Event.engineStart]

/-- Event trace of `stop()`: `this.wm.stop(); this.network.stop();
this.engine.stop()`. -/
def stopEvents : List Event :=
  [Event.wmStop, Event.networkStop, Event.engineStop]

/-- The component a lifecycle event belongs to. -/
def compOfEvent : Event → Option Comp
  | Event.wmRun => some Comp.wm
  | Event.networkStart => some Comp.network
  | Event.engineStart => some Comp.engine
  | Event.wmStop => some Comp.wm
  | Event.networkStop => some Comp.network
  | Event.engineStop => some Comp.engine
  | _ => none

/-- The order in which `start()` brings the components up. -/
def startOrder : List Comp := startEvents.filterMap compOfEvent

/-- The order in which `stop()` tears the components down. -/
def stopOrder : List Comp := stopEvents.filterMap compOfEvent

/-- `cb = cb || (() => \x7b\x7d)`: a missing callback is replaced by a no-op
returning `noopRes`. -/
def orNoopCb {α : Type} (noopRes : α) (cb : Option (Option String → α)) :
    Option String → α :=
  cb.getD (fun _ => noopRes)

/-- `_receiveMessage(peerId, incoming, cb)` with its optional callback, as in
the source: the callback defaults to a no-op and is invoked (with no error)
once all blocks have been processed.  Returns the state, the trace and the
callback's result. -/
def receiveMessageWithCb {α : Type} (noopRes : α) (cb : Option (Option String → α))
    (putFails : Nat → Bool) (wl : List Nat) (st : BState)
    (blocks : List (Block × Bool)) : (BState × List Event) × α :=
  (receiveMessage putFails wl st blocks, (orNoopCb noopRes cb) none)

/-- `hasBlock(block, cb)` with its optional callback, as in the source: the
callback defaults to a no-op and receives the outcome of the retried put. -/
def hasBlockWithCb {α : Type} (noopRes : α) (cb : Option (Option String → α))
    (s : Store) (b : Block) (putFails : Nat → Bool) :
    (Store × List Event) × α :=
  let r := hasBlock s b putFails
  ((r.1, r.2.1), (orNoopCb noopRes cb) r.2.2)

/-- Whether an event is a `wm.cancelWants` call. -/
def isCancelEvent : Event → Bool
  | Event.cancelWants _ => true
  | _ => false

/-- Concrete test block. -/
def bA : Block := ⟨7, [1, 2, 3]⟩

/-- Concrete test block. -/
def bB : Block := ⟨5, [1, 2]⟩

/-- Concrete test block. -/
def bC : Block := ⟨3, [9]⟩

/-! Helper lemmas. -/

lemma tryPut_allOk : tryPutBlock (fun _ => false) hasBlockRetryTimes = true := rfl

lemma processBlock_ok_fst (st : BState) (b : Block) :
    (processBlock (fun _ => false) st (b, false)).1 =
      ⟨storePut st.store b,
       ⟨st.counters.blocksRecvd + 1,
        st.counters.dupBlocksRecvd + (if storeHas st.store b.key then 1 else 0),
        st.counters.dupDataRecvd +
          (if storeHas st.store b.key then b.data.length else 0)⟩⟩ := by
  cases h : storeHas st.store b.key <;>
    simp [processBlock, updateReceiveCounters, hasBlock, tryPut_allOk, h]

/-! Theorems for the claims. -/

/-- C3, counterexample: `start()` runs WantManager, then Network, then
DecisionEngine (not WantManager, DecisionEngine, Network as claimed), and
`stop()` runs the components in the same order as `start()`, not in the
reverse order the claim states. -/
theorem start_stop_order_counterexample :
    startOrder = [Comp.wm, Comp.network, Comp.engine] ∧
    stopOrder = [Comp.wm, Comp.network, Comp.engine] ∧
    ¬ (startOrder = [Comp.wm, Comp.engine, Comp.network] ∧
       stopOrder = [Comp.network, Comp.engine, Comp.wm]) := by
  decide

/-- C3, amended: `start()` brings up the WantManager, then the Network, then
the DecisionEngine, and `stop()` tears them down in exactly the same order
(WantManager, Network, DecisionEngine) — not reversed. -/
theorem start_stop_same_order :
    startOrder = [Comp.wm, Comp.network, Comp.engine] ∧
    stopOrder = startOrder ∧
    stopOrder ≠ startOrder.reverse := by
  decide

/-- C2: a pending local get whose key is passed to `unwantBlocks` is cleaned
up by the `unwant:<keyB58>` notification and its stream ends WITHOUT an
error — in particular not with the error `manual unwant: <keyB58>` that the
repository's own API.md and test suite promise. -/
theorem unwant_pending_get_no_error :
    getStreamWaiter 9 (unwantBlocks [9]).2 = (GetOutcome.unwanted, [], none) ∧
    (getStreamWaiter 9 (unwantBlocks [9]).2).2.2 ≠
      some ("manual unwant: " ++ toB58String 9) := by
  decide

/-- C10: in `_receiveMessage` and `hasBlock` a missing callback is replaced
by a no-op (`cb = cb || noop`), so an invocation without a callback behaves
exactly like one with the explicit no-op callback and both operations
complete normally on every input. -/
theorem missing_callback_is_noop {α : Type} (noopRes : α) (putFails : Nat → Bool)
    (wl : List Nat) (st : BState) (blocks : List (Block × Bool))
    (s : Store) (b : Block) (putFails2 : Nat → Bool) :
    receiveMessageWithCb noopRes none putFails wl st blocks =
      receiveMessageWithCb noopRes (some (fun _ => noopRes)) putFails wl st blocks ∧
    hasBlockWithCb noopRes none s b putFails2 =
      hasBlockWithCb noopRes (some (fun _ => noopRes)) s b putFails2 :=
  ⟨rfl, rfl⟩

/-- C5: `hasBlock` retries the blockstore put up to 4 times at 400 ms
intervals; when some attempt among the 4 succeeds, the events are exactly
the put, then the single `block:<keyB58>` notification, then
`engine.receivedBlock`, and the callback gets no error; when all 4 attempts
fail, the store is unchanged, the error propagates to the callback, and
neither the notification nor the engine call occurs. -/
theorem hasBlock_retry_notify (s : Store) (b : Block) (putFails : Nat → Bool) :
    hasBlockRetryTimes = 4 ∧ tryPutInterval = 400 ∧
    ((∃ i, i < hasBlockRetryTimes ∧ putFails i = false) →
      hasBlock s b putFails =
        (storePut s b,
         [Event.blockstorePut b,
          Event.notifyBlock ("block:" ++ toB58String b.key) b,
          Event.engineReceivedBlock b],
         none)) ∧
    ((∀ i, i < hasBlockRetryTimes → putFails i = true) →
      hasBlock s b putFails =
        (s, [Event.putFailed b], some "Error writing block to blockstore")) := by
  refine ⟨rfl, rfl, ?_, ?_⟩
  · rintro ⟨i, hi, hp⟩
    have ht : tryPutBlock putFails hasBlockRetryTimes = true := by
      simp only [tryPutBlock, List.any_eq_true, List.mem_range]
      exact ⟨i, hi, by simp [hp]⟩
    simp [hasBlock, ht]
  · intro hall
    have ht : tryPutBlock putFails hasBlockRetryTimes = false := by
      simp only [tryPutBlock, List.any_eq_false, List.mem_range]
      intro i hi
      simp [hall i hi]
    simp [hasBlock, ht]

/-- Witness for C5: a put that succeeds on the first attempt stores the
block, notifies once and reports no error; a put that fails on all attempts
leaves the store unchanged and reports the error. -/
theorem hasBlock_retry_notify_cases :
    hasBlock [] bB (fun _ => false) =
      (storePut [] bB,
       [Event.blockstorePut bB,
        Event.notifyBlock ("block:" ++ toB58String bB.key) bB,
        Event.engineReceivedBlock bB],
       none) ∧
    hasBlock [] bB (fun _ => true) =
      ([], [Event.putFailed bB], some "Error writing block to blockstore") :=
  ⟨(hasBlock_retry_notify [] bB (fun _ => false)).2.2.1 ⟨0, by decide, rfl⟩,
   (hasBlock_retry_notify [] bB (fun _ => true)).2.2.2 (fun _ _ => rfl)⟩

lemma storeHas_getOk (s : Store) (k : Nat) (h : storeHas s k = true) :
    ∃ b, storeGet s k = some b ∧ b.key = k := by
  induction s with
  | nil => simp [storeHas] at h
  | cons b' s ih =>
      by_cases hk : b'.key = k
      · exact ⟨b', by simp [storeGet, List.find?, hk], hk⟩
      · have hkb : (b'.key == k) = false := by simp [hk]
        have h' : storeHas s k = true := by
          simpa [storeHas, hkb] using h
        obtain ⟨b, hb, hbk⟩ := ih h'
        exact ⟨b, by simpa [storeGet, List.find?, hkb] using hb, hbk⟩

/-- C8: feeding `getStream` a key that the blockstore has emits the block
read from the blockstore directly; no waiter is registered and no want is
broadcast through `wm.wantBlocks` (hence no `network.sendMessage`) for that
key. -/
theorem getStream_local_hit (s : Store) (k : Nat) (h : storeHas s k = true) :
    (getStreamProcessKey s k).registered = false ∧
    (getStreamProcessKey s k).wantedKeys = [] ∧
    ∃ b, storeGet s k = some b ∧ b.key = k ∧
      (getStreamProcessKey s k).emitted = [b] := by
  obtain ⟨b, hb, hbk⟩ := storeHas_getOk s k h
  exact ⟨by simp [getStreamProcessKey, h], by simp [getStreamProcessKey, h],
    b, hb, hbk, by simp [getStreamProcessKey, h, hb]⟩

/-- Witness for C8: with block bA stored, its key is served locally with no
registration and no want broadcast. -/
theorem getStream_local_hit_concrete :
    (getStreamProcessKey [bA] 7).registered = false ∧
    (getStreamProcessKey [bA] 7).wantedKeys = [] ∧
    ∃ b, storeGet [bA] 7 = some b ∧ b.key = 7 ∧
      (getStreamProcessKey [bA] 7).emitted = [b] :=
  getStream_local_hit [bA] 7 (by decide)

/-- C6: two concurrent gets for the same missing key share one refcounted
want-list entry with refcount 2 while both are pending, and a single
delivery of the block (the one `block:<keyB58>` notification of `hasBlock`)
hands the block to each of the two gets exactly once. -/
theorem concurrent_gets_share_entry (g1 g2 k : Nat) (b : Block)
    (hne : g1 ≠ g2) (hk : b.key = k) :
    wlRefcount (registerGet (registerGet ⟨[], [], []⟩ g1 k) g2 k).wl k = 2 ∧
    ((registerGet (registerGet ⟨[], [], []⟩ g1 k) g2 k).wl.filter
        (fun e => e.1 == k)).length = 1 ∧
    ((deliverBlock (registerGet (registerGet ⟨[], [], []⟩ g1 k) g2 k) b).delivered.filter
        (fun d => d.1 == g1)) = [(g1, b)] ∧
    ((deliverBlock (registerGet (registerGet ⟨[], [], []⟩ g1 k) g2 k) b).delivered.filter
        (fun d => d.1 == g2)) = [(g2, b)] := by
  subst hk
  have h12 : (g1 == g2) = false := by simp [hne]
  have h21 : (g2 == g1) = false := by simp [Ne.symm hne]
  simp [registerGet, deliverBlock, wlAdd, wlRefcount, List.find?, List.filter,
    h12, h21]

/-- Witness for C6: gets 0 and 1 for key 3, then delivery of block bC. -/
theorem concurrent_gets_share_entry_concrete :
    wlRefcount (registerGet (registerGet ⟨[], [], []⟩ 0 3) 1 3).wl 3 = 2 ∧
    ((registerGet (registerGet ⟨[], [], []⟩ 0 3) 1 3).wl.filter
        (fun e => e.1 == 3)).length = 1 ∧
    ((deliverBlock (registerGet (registerGet ⟨[], [], []⟩ 0 3) 1 3) bC).delivered.filter
        (fun d => d.1 == 0)) = [(0, bC)] ∧
    ((deliverBlock (registerGet (registerGet ⟨[], [], []⟩ 0 3) 1 3) bC).delivered.filter
        (fun d => d.1 == 1)) = [(1, bC)] :=
  concurrent_gets_share_entry 0 1 3 bC (by decide) rfl

/-- C1, counterexample: delivering block bA to a node whose blockstore
already holds bA bumps both duplicate counters, yet the block is still
handed to `hasBlock` and the blockstore put still happens — the put is not
skipped, because `_receiveMessage` swallows the `Already have block` error
and its `series` continues with the `hasBlock` step. -/
theorem dup_put_not_skipped_counterexample :
    (receiveMessageOk [] ⟨[bA], ⟨0, 0, 0⟩⟩ [bA]).1.counters = ⟨1, 1, 3⟩ ∧
    Event.hasBlockCall bA ∈ (receiveMessageOk [] ⟨[bA], ⟨0, 0, 0⟩⟩ [bA]).2 ∧
    Event.blockstorePut bA ∈ (receiveMessageOk [] ⟨[bA], ⟨0, 0, 0⟩⟩ [bA]).2 := by
  decide

/-- C1, amended: in `_receiveMessage`'s per-block series, a block whose key
is already in the blockstore at its processing time bumps `blocksReceived`,
`dupBlocksReceived` and `dupDataReceived` (by the block's data length), but
the block is nevertheless still handed to `hasBlock`, which attempts the
blockstore put (idempotent) — the put is NOT skipped for duplicates. -/
theorem dup_counters_put_still_attempted (st : BState) (b : Block)
    (h : storeHas st.store b.key = true) :
    (processBlock (fun _ => false) st (b, false)).1.counters.blocksRecvd
        = st.counters.blocksRecvd + 1 ∧
    (processBlock (fun _ => false) st (b, false)).1.counters.dupBlocksRecvd
        = st.counters.dupBlocksRecvd + 1 ∧
    (processBlock (fun _ => false) st (b, false)).1.counters.dupDataRecvd
        = st.counters.dupDataRecvd + b.data.length ∧
    Event.hasBlockCall b ∈ (processBlock (fun _ => false) st (b, false)).2 ∧
    Event.blockstorePut b ∈ (processBlock (fun _ => false) st (b, false)).2 := by
  refine ⟨?_, ?_, ?_, ?_, ?_⟩ <;>
    simp [processBlock, updateReceiveCounters, hasBlock, tryPut_allOk, h]

/-- Witness for C1's amended theorem: block bA, already stored, processed by
the receive path. -/
theorem dup_counters_put_still_attempted_concrete :
    (processBlock (fun _ => false) ⟨[bA], ⟨0, 0, 0⟩⟩ (bA, false)).1.counters.blocksRecvd
        = (0 : Nat) + 1 ∧
    (processBlock (fun _ => false) ⟨[bA], ⟨0, 0, 0⟩⟩ (bA, false)).1.counters.dupBlocksRecvd
        = (0 : Nat) + 1 ∧
    (processBlock (fun _ => false) ⟨[bA], ⟨0, 0, 0⟩⟩ (bA, false)).1.counters.dupDataRecvd
        = 0 + bA.data.length ∧
    Event.hasBlockCall bA ∈ (processBlock (fun _ => false) ⟨[bA], ⟨0, 0, 0⟩⟩ (bA, false)).2 ∧
    Event.blockstorePut bA ∈ (processBlock (fun _ => false) ⟨[bA], ⟨0, 0, 0⟩⟩ (bA, false)).2 :=
  dup_counters_put_still_attempted ⟨[bA], ⟨0, 0, 0⟩⟩ bA (by decide)

lemma processBlock_events_eq (pf : Nat → Bool) (st : BState) (bf : Block × Bool) :
    (processBlock pf st bf).2 =
      Event.counterUpdate bf.1.key :: Event.hasBlockCall bf.1 ::
        (hasBlock st.store bf.1 pf).2.1 := rfl

lemma processBlock_no_cancel (pf : Nat → Bool) (st : BState) (bf : Block × Bool) :
    ∀ e ∈ (processBlock pf st bf).2, isCancelEvent e = false := by
  intro e he
  rw [processBlock_events_eq] at he
  rcases List.mem_cons.mp he with rfl | he
  · rfl
  rcases List.mem_cons.mp he with rfl | he
  · rfl
  unfold hasBlock at he
  split at he
  · simp only [List.mem_cons, List.not_mem_nil, or_false] at he
    rcases he with rfl | rfl | rfl <;> rfl
  · simp only [List.mem_cons, List.not_mem_nil, or_false] at he
    subst he
    rfl

lemma rmStep_eq (pf : Nat → Bool) (st : BState) (evts : List Event) (bf : Block × Bool) :
    rmStep pf (st, evts) bf =
      ((processBlock pf st bf).1, evts ++ (processBlock pf st bf).2) := rfl

lemma foldl_rmStep_events (pf : Nat → Bool) (blocks : List (Block × Bool)) :
    ∀ (st : BState) (evts : List Event),
      ∃ rest, (blocks.foldl (rmStep pf) (st, evts)).2 = evts ++ rest ∧
        ∀ e ∈ rest, isCancelEvent e = false := by
  induction blocks with
  | nil => exact fun st evts => ⟨[], by simp, by simp⟩
  | cons bf bs ih =>
      intro st evts
      obtain ⟨rest, hr, hnc⟩ :=
        ih (processBlock pf st bf).1 (evts ++ (processBlock pf st bf).2)
      refine ⟨(processBlock pf st bf).2 ++ rest, ?_, ?_⟩
      · rw [List.foldl_cons, rmStep_eq, hr, List.append_assoc]
      · intro e he
        rcases List.mem_append.mp he with h | h
        · exact processBlock_no_cancel pf st bf e h
        · exact hnc e h

lemma foldl_rmStep_hasBlockCall (pf : Nat → Bool) (blocks : List (Block × Bool)) :
    ∀ (st : BState) (evts : List Event), ∀ bf ∈ blocks,
      Event.hasBlockCall bf.1 ∈ (blocks.foldl (rmStep pf) (st, evts)).2 := by
  induction blocks with
  | nil => intro st evts bf h; simp at h
  | cons bf' bs ih =>
      intro st evts bf h
      rw [List.foldl_cons, rmStep_eq]
      rcases List.mem_cons.mp h with rfl | h
      · obtain ⟨rest, hr, _⟩ :=
          foldl_rmStep_events pf bs (processBlock pf st bf).1
            (evts ++ (processBlock pf st bf).2)
        rw [hr]
        have hm : Event.hasBlockCall bf.1 ∈ (processBlock pf st bf).2 := by
          rw [processBlock_events_eq]
          simp
        exact List.mem_append.mpr (Or.inl (List.mem_append.mpr (Or.inr hm)))
      · exact ih _ _ bf h

/-- C9: a `blockstore.has` error while updating receive counters leaves
`blocksRecvd` incremented for that block, changes neither duplicate counter,
and does not abort processing: the block is still handed to `hasBlock`, and
every remaining block of the message is handed to `hasBlock` as well. -/
theorem has_error_does_not_abort (putFails : Nat → Bool) (wl : List Nat)
    (st : BState) (b : Block) (rest : List (Block × Bool)) :
    (processBlock putFails st (b, true)).1.counters.blocksRecvd
        = st.counters.blocksRecvd + 1 ∧
    (processBlock putFails st (b, true)).1.counters.dupBlocksRecvd
        = st.counters.dupBlocksRecvd ∧
    (processBlock putFails st (b, true)).1.counters.dupDataRecvd
        = st.counters.dupDataRecvd ∧
    Event.hasBlockCall b ∈ (receiveMessage putFails wl st ((b, true) :: rest)).2 ∧
    ∀ bf ∈ rest,
      Event.hasBlockCall bf.1 ∈ (receiveMessage putFails wl st ((b, true) :: rest)).2 := by
  refine ⟨?_, ?_, ?_, ?_, ?_⟩
  · simp [processBlock, updateReceiveCounters]
  · simp [processBlock, updateReceiveCounters]
  · simp [processBlock, updateReceiveCounters]
  · have h := foldl_rmStep_hasBlockCall putFails ((b, true) :: rest) st
      [Event.engineMessageReceived,
       Event.cancelWants
         (((((b, true) :: rest).map Prod.fst).filter
            (fun x => wl.contains x.key)).map Block.key)]
      (b, true) (List.mem_cons_self _ _)
    simpa [receiveMessage] using h
  · intro bf hbf
    have h := foldl_rmStep_hasBlockCall putFails ((b, true) :: rest) st
      [Event.engineMessageReceived,
       Event.cancelWants
         (((((b, true) :: rest).map Prod.fst).filter
            (fun x => wl.contains x.key)).map Block.key)]
      bf (List.mem_cons_of_mem _ hbf)
    simpa [receiveMessage] using h

/-- Witness for C9: a faulted `has` for block bA followed by block bB; both
still reach `hasBlock`. -/
theorem has_error_does_not_abort_concrete :
    (processBlock (fun _ => false) ⟨[], ⟨0, 0, 0⟩⟩ (bA, true)).1.counters.blocksRecvd
        = (0 : Nat) + 1 ∧
    (processBlock (fun _ => false) ⟨[], ⟨0, 0, 0⟩⟩ (bA, true)).1.counters.dupBlocksRecvd
        = (0 : Nat) ∧
    Event.hasBlockCall bA ∈
      (receiveMessage (fun _ => false) [] ⟨[], ⟨0, 0, 0⟩⟩ [(bA, true), (bB, false)]).2 ∧
    Event.hasBlockCall bB ∈
      (receiveMessage (fun _ => false) [] ⟨[], ⟨0, 0, 0⟩⟩ [(bA, true), (bB, false)]).2 :=
  ⟨(has_error_does_not_abort (fun _ => false) [] ⟨[], ⟨0, 0, 0⟩⟩ bA [(bB, false)]).1,
   (has_error_does_not_abort (fun _ => false) [] ⟨[], ⟨0, 0, 0⟩⟩ bA [(bB, false)]).2.1,
   (has_error_does_not_abort (fun _ => false) [] ⟨[], ⟨0, 0, 0⟩⟩ bA [(bB, false)]).2.2.2.1,
   (has_error_does_not_abort (fun _ => false) [] ⟨[], ⟨0, 0, 0⟩⟩ bA [(bB, false)]).2.2.2.2
     (bB, false) (by simp)⟩

/-- C7: the trace of a fault-free `_receiveMessage` carrying at least one
block starts with the engine hand-off and then a single `wm.cancelWants`
whose keys are exactly the keys of the carried blocks that are in the local
want-list, in message order; every later event (in particular every
blockstore put) comes after that cancel, and no further cancel occurs. -/
theorem cancels_broadcast_before_storing (wl : List Nat) (st : BState)
    (blocks : List Block) (h : blocks ≠ []) :
    ∃ rest,
      (receiveMessageOk wl st blocks).2 =
        Event.engineMessageReceived ::
          Event.cancelWants
            ((blocks.filter (fun b => wl.contains b.key)).map Block.key) :: rest ∧
      ∀ e ∈ rest, isCancelEvent e = false := by
  cases blocks with
  | nil => exact absurd rfl h
  | cons b bs =>
      have hmap : ∀ l : List Block,
          (l.map (fun x => (x, false))).map Prod.fst = l := by
        intro l
        induction l with
        | nil => rfl
        | cons x xs ih => simp [ih]
      obtain ⟨rest, hr, hnc⟩ :=
        foldl_rmStep_events (fun _ => false) ((b :: bs).map (fun x => (x, false))) st
          [Event.engineMessageReceived,
           Event.cancelWants
             (((((b :: bs).map (fun x => (x, false))).map Prod.fst).filter
                (fun x => wl.contains x.key)).map Block.key)]
      refine ⟨rest, ?_, hnc⟩
      have heq : (receiveMessageOk wl st (b :: bs)).2 =
          (((b :: bs).map (fun x => (x, false))).foldl (rmStep (fun _ => false))
            (st,
             [Event.engineMessageReceived,
              Event.cancelWants
                (((((b :: bs).map (fun x => (x, false))).map Prod.fst).filter
                   (fun x => wl.contains x.key)).map Block.key)])).2 := rfl
      rw [heq, hr, hmap]
      rfl

/-- Witness for C7: a message carrying bA (wanted) and bB (not wanted) with
want-list [7] cancels exactly key 7 before the block events. -/
theorem cancels_broadcast_before_storing_concrete :
    ∃ rest,
      (receiveMessageOk [7] ⟨[], ⟨0, 0, 0⟩⟩ [bA, bB]).2 =
        Event.engineMessageReceived ::
          Event.cancelWants
            (([bA, bB].filter (fun b => [7].contains b.key)).map Block.key) :: rest ∧
      ∀ e ∈ rest, isCancelEvent e = false :=
  cancels_broadcast_before_storing [7] ⟨[], ⟨0, 0, 0⟩⟩ [bA, bB] (by decide)

lemma dupCount_nil : dupCount [] = 0 := rfl

lemma dupData_nil : dupData [] = 0 := rfl

lemma dupCount_cons (b : Block) (f : Bool) (flags : List (Block × Bool)) :
    dupCount ((b, f) :: flags) = (if f then 1 else 0) + dupCount flags := by
  cases f <;> (simp [dupCount, List.filter_cons]; try omega)

lemma dupData_cons (b : Block) (f : Bool) (flags : List (Block × Bool)) :
    dupData ((b, f) :: flags) = (if f then b.data.length else 0) + dupData flags := by
  cases f <;> simp [dupData, List.filter_cons]

lemma dupCount_append (xs ys : List (Block × Bool)) :
    dupCount (xs ++ ys) = dupCount xs + dupCount ys := by
  simp [dupCount, List.filter_append]

lemma dupData_append (xs ys : List (Block × Bool)) :
    dupData (xs ++ ys) = dupData xs + dupData ys := by
  simp [dupData, List.filter_append]

lemma dupFlags_append (xs ys : List Block) : ∀ s : Store,
    dupFlags s (xs ++ ys) = dupFlags s xs ++ dupFlags (xs.foldl storePut s) ys := by
  induction xs with
  | nil => intro s; simp [dupFlags]
  | cons b bs ih => intro s; simp [dupFlags, ih]

lemma foldl_rmStep_fst (pf : Nat → Bool) (blocks : List (Block × Bool)) :
    ∀ (st : BState) (evts : List Event),
      (blocks.foldl (rmStep pf) (st, evts)).1 =
        blocks.foldl (fun s bf => (processBlock pf s bf).1) st := by
  induction blocks with
  | nil => intro st evts; rfl
  | cons bf bs ih =>
      intro st evts
      rw [List.foldl_cons, List.foldl_cons, rmStep_eq]
      exact ih _ _

lemma receiveMessageOk_fst (wl : List Nat) (st : BState) (blocks : List Block) :
    (receiveMessageOk wl st blocks).1 =
      blocks.foldl (fun s b => (processBlock (fun _ => false) s (b, false)).1) st := by
  cases blocks with
  | nil => rfl
  | cons b bs =>
      have heq : (receiveMessageOk wl st (b :: bs)).1 =
          (((b :: bs).map (fun x => (x, false))).foldl (rmStep (fun _ => false))
            (st,
             [Event.engineMessageReceived,
              Event.cancelWants
                (((((b :: bs).map (fun x => (x, false))).map Prod.fst).filter
                   (fun x => wl.contains x.key)).map Block.key)])).1 := rfl
      rw [heq, foldl_rmStep_fst, List.foldl_map]

lemma fold_ok_store (blocks : List Block) : ∀ st : BState,
    (blocks.foldl (fun s b => (processBlock (fun _ => false) s (b, false)).1) st).store
      = blocks.foldl storePut st.store := by
  induction blocks with
  | nil => intro st; rfl
  | cons b bs ih =>
      intro st
      rw [List.foldl_cons, List.foldl_cons, processBlock_ok_fst]
      exact ih _

lemma fold_ok_counters (blocks : List Block) : ∀ st : BState,
    ((blocks.foldl (fun s b => (processBlock (fun _ => false) s (b, false)).1)
        st).counters.blocksRecvd
      = st.counters.blocksRecvd + blocks.length) ∧
    ((blocks.foldl (fun s b => (processBlock (fun _ => false) s (b, false)).1)
        st).counters.dupBlocksRecvd
      = st.counters.dupBlocksRecvd + dupCount (dupFlags st.store blocks)) ∧
    ((blocks.foldl (fun s b => (processBlock (fun _ => false) s (b, false)).1)
        st).counters.dupDataRecvd
      = st.counters.dupDataRecvd + dupData (dupFlags st.store blocks)) := by
  induction blocks with
  | nil => intro st; simp [dupFlags, dupCount_nil, dupData_nil]
  | cons b bs ih =>
      intro st
      obtain ⟨ih1, ih2, ih3⟩ := ih ((processBlock (fun _ => false) st (b, false)).1)
      simp only [List.foldl_cons]
      refine ⟨?_, ?_, ?_⟩
      · rw [ih1, processBlock_ok_fst]
        simp [List.length_cons]
        omega
      · rw [ih2, processBlock_ok_fst]
        cases hh : storeHas st.store b.key <;>
          (simp [dupFlags, hh, dupCount_cons]; try omega)
      · rw [ih3, processBlock_ok_fst]
        cases hh : storeHas st.store b.key <;>
          (simp [dupFlags, hh, dupData_cons]; try omega)

/-- C4: after any sequence of fault-free `_receiveMessage` calls,
`blocksReceived` has grown by the total number of delivered blocks,
`dupBlocksReceived` by the number of delivered blocks whose key was already
in the blockstore at their delivery time, and `dupDataReceived` by the total
data length of those duplicates (the delivery replay `dupFlags` computes
which deliveries were duplicates against the evolving store). -/
theorem receive_counters_invariant (wl : List Nat) (st : BState)
    (msgs : List (List Block)) :
    (receiveMessages wl st msgs).counters.blocksRecvd
        = st.counters.blocksRecvd + msgs.flatten.length ∧
    (receiveMessages wl st msgs).counters.dupBlocksRecvd
        = st.counters.dupBlocksRecvd + dupCount (dupFlags st.store msgs.flatten) ∧
    (receiveMessages wl st msgs).counters.dupDataRecvd
        = st.counters.dupDataRecvd + dupData (dupFlags st.store msgs.flatten) := by
  induction msgs generalizing st with
  | nil => simp [receiveMessages, dupFlags, dupCount_nil, dupData_nil]
  | cons m ms ih =>
      have hrec : receiveMessages wl st (m :: ms)
          = receiveMessages wl ((receiveMessageOk wl st m).1) ms := rfl
      have hjoin : (m :: ms).flatten = m ++ ms.flatten := rfl
      have hfold := receiveMessageOk_fst wl st m
      obtain ⟨ih1, ih2, ih3⟩ :=
        ih (m.foldl (fun s b => (processBlock (fun _ => false) s (b, false)).1) st)
      obtain ⟨hc1, hc2, hc3⟩ := fold_ok_counters m st
      have hsto := fold_ok_store m st
      rw [hrec, hjoin, hfold]
      refine ⟨?_, ?_, ?_⟩
      · rw [ih1, hc1]
        simp [List.length_append]
        omega
      · rw [ih2, hc2, hsto, dupFlags_append, dupCount_append]
        omega
      · rw [ih3, hc3, hsto, dupFlags_append, dupData_append]
        omega

end Bitswap
